import Mathlib

/-!
Verification development for the AMPL hyperparameter search wrapper
(`atomsci/ddm/utils/hyperparam_search_wrapper.py`).

The Python source is shallowly embedded: Python lists become `List`,
Python dicts that are only written and looked up become functions
`String → Option V`, Python ints become `Nat`, floating point ranges are
modelled in exact arithmetic (`ℚ`, `ℝ`), and code that can raise an
exception (or fall off the end of a function, returning Python `None`)
returns `Option`.
-/

namespace AMPL

/-! ## Layer topology permutator (`permutate_NNlayer_combo_params`, lines 133-178) -/

/-- Embedding of `itertools.combinations(l, r)`: all length-`r` subsequences of
`l`, in the order itertools emits them (those containing the first element
first, positions strictly increasing). -/
def combinations {α : Type} : List α → Nat → List (List α)
  | _, 0 => [[]]
  | [], _ + 1 => []
  | x :: xs, r + 1 => (combinations xs r).map (fun c => x :: c) ++ combinations xs (r + 1)

/-- Embedding of `np.sort(np.array(node_nums))[::-1]`: sort ascending, then
reverse, giving a descending list. -/
def sort_desc (l : List Nat) : List Nat :=
  (List.insertionSort (· ≤ ·) l).reverse

/-- Inner two loops of `permutate_NNlayer_combo_params` for one `dropout`
value: walk the candidate layer lists (the concatenation over `layer_nums` of
`itertools.combinations(node_nums, layer_num)`), keeping a `_repeated_layers`
accumulator `rep`, and appending to the running `layer_sizes` / `dropouts`
accumulators.  `layer[-1]` on an empty candidate raises `IndexError`, modelled
as `none`. -/
def perm_layers_loop {δ : Type} (cap : Nat) (dropout : δ) :
    List (List Nat) → List (List Nat) → List (List Nat) → List (List δ) →
    Option (List (List Nat) × List (List Nat) × List (List δ))
  | [], rep, ls, ds => some (rep, ls, ds)
  | layer :: rest, rep, ls, ds =>
    match layer.getLast? with
    | none => none
    | some last =>
      if last ≤ cap ∧ layer ∉ rep then
        perm_layers_loop cap dropout rest (rep ++ [layer]) (ls ++ [layer])
          (ds ++ [layer.map (fun _ => dropout)])
      else
        perm_layers_loop cap dropout rest rep ls ds

/-- Outer loop of `permutate_NNlayer_combo_params` over `dropout_list`;
`_repeated_layers` is reset to `[]` for each dropout value while the
`layer_sizes` / `dropouts` accumulators persist. -/
def perm_dropouts_loop {δ : Type} (cap : Nat) (cands : List (List Nat)) :
    List δ → List (List Nat) → List (List δ) →
    Option (List (List Nat) × List (List δ))
  | [], ls, ds => some (ls, ds)
  | dropout :: rest, ls, ds =>
    match perm_layers_loop cap dropout cands [] ls ds with
    | none => none
    | some (_, ls', ds') => perm_dropouts_loop cap cands rest ls' ds'

/-- Embedding of `permutate_NNlayer_combo_params` (lines 159-178).  Node sizes
are `Nat`; dropout values keep an abstract type `δ`.  `node_nums[-1]` on an
empty array raises `IndexError`, modelled as `none`. -/
def permutate_NNlayer_combo_params {δ : Type} (layer_nums node_nums : List Nat)
    (dropout_list : List δ) (max_final_layer_size : Nat) :
    Option (List (List Nat) × List (List δ)) :=
  let sorted := sort_desc node_nums
  match sorted.getLast? with
  | none => none
  | some smallest =>
    let cap := if smallest > max_final_layer_size then smallest else max_final_layer_size
    let cands := layer_nums.flatMap (fun layer_num => combinations sorted layer_num)
    perm_dropouts_loop cap cands dropout_list [] []

/-! ## Model size estimate (`get_num_params`, lines 181-206) -/

/-- Running sum `sum(layers[i] * layers[i+1] + layers[i+1] for i in range(len(layers) - 1))`. -/
def pair_sum : List Nat → Nat
  | a :: b :: rest => a * b + b + pair_sum (b :: rest)
  | _ => 0

/-- Embedding of `get_num_params` (lines 181-206).  The `combo` dict is
abstracted to the three fields the function reads.  `layers[0]` on an empty
list raises `IndexError`, and the branch `featurizer == 'descriptors'` with a
`descriptor_type` that is neither `'moe'` nor `'mordred_filtered'` falls off
the end of the function (the final `else` is attached to the inner `if`), so
Python returns `None`; both are modelled as `none`. -/
def get_num_params (layer_sizes : List Nat) (featurizer descriptor_type : String) :
    Option Nat :=
  match layer_sizes with
  | [] => none
  | l0 :: _ =>
    let tmp_sum := l0 + pair_sum layer_sizes
    if featurizer = "ecfp" then some (tmp_sum + l0 * 1024)
    else if featurizer = "descriptors" then
      if descriptor_type = "moe" then some (tmp_sum + l0 * 306)
      else if descriptor_type = "mordred_filtered" then some (tmp_sum + l0 * 1555)
      else none
    else some tmp_sum

/-! ## Combination assembly (`generate_combos`, lines 362-380) -/

/-- Embedding of `HyperparameterSearch.generate_combos` applied to the already
expanded `new_dict` (the result of the strategy-specific `generate_combo`):
`itertools.product` over the value lists, zipped back with the keys, one
parameter-combination record per product tuple, first key varying slowest. -/
def generate_combos {α : Type} : List (String × List α) → List (List (String × α))
  | [] => [[]]
  | (k, vs) :: rest =>
    vs.flatMap (fun v => (generate_combos rest).map (fun combo => (k, v) :: combo))

/-! ## Layer bundle assembly (`assemble_layers`, lines 382-401) -/

/-- Embedding of `x.count(x[0]) == len(x)` guarded by the bare `except`:
`x[0]` on an empty list raises `IndexError`, which the `except: continue`
swallows, so an empty list counts as a failed check. -/
def lengths_all_equal : List Nat → Bool
  | [] => false
  | x0 :: rest => (x0 :: rest).all (fun x => x = x0)

/-- The `tmp_dict` built at position `i`: the `i`-th constituent list of every
layer-group parameter.  At every call `i < min_len`, so `getD` never uses its
fallback. -/
def bundle_at {α : Type} (layers : List (String × List (List α))) (i : Nat) :
    List (String × List α) :=
  layers.map (fun p => (p.1, p.2.getD i []))

/-- Embedding of `min([len(x) for x in list(self.layers.values())])`.  Python
`min` of an empty sequence raises, but `assemble_layers` is only called when
`self.layers` is non-empty; the `[]` case is given the junk value 0. -/
def min_len {α : Type} (layers : List (String × List (List α))) : Nat :=
  match layers.map (fun p => p.2.length) with
  | [] => 0
  | x :: xs => xs.foldl Nat.min x

/-- Embedding of `HyperparameterSearch.assemble_layers` (lines 382-401): for
each position `i` below the minimum constituent-list count, build `tmp_dict`,
keep it when all its lists have equal length, silently drop it otherwise. -/
def assemble_layers {α : Type} (layers : List (String × List (List α))) :
    List (List (String × List α)) :=
  (List.range (min_len layers)).foldl
    (fun tmp_list i =>
      let tmp_dict := bundle_at layers i
      if lengths_all_equal (tmp_dict.map (fun p => p.2.length)) then tmp_list ++ [tmp_dict]
      else tmp_list)
    []

/-! ## Numeric range expansion (`GridSearch.generate_combo` line 883,
`GeometricSearch.generate_combo` line 982) -/

/-- Exact-arithmetic model of `np.linspace(start, stop, num)`: `num` evenly
spaced points from `start` to `stop` inclusive. -/
def linspace (start stop : ℚ) (num : Nat) : List ℚ :=
  if num = 0 then []
  else if num = 1 then [start]
  else (List.range num).map (fun i => start + i * ((stop - start) / ((num : ℚ) - 1)))

/-- Embedding of the numeric branch of `GridSearch.generate_combo`:
`tmp_list = list(np.linspace(value[0], value[1], value[2]))`. -/
def grid_expand (low high : ℚ) (count : Nat) : List ℚ :=
  linspace low high count

/-- Exact-arithmetic model of `np.geomspace(start, stop, num)` for positive
endpoints: `num` log-uniformly spaced points from `start` to `stop` inclusive,
`start * (stop / start) ^ (i / (num - 1))`. -/
noncomputable def geomspace (start stop : ℝ) (num : Nat) : List ℝ :=
  if num = 0 then []
  else if num = 1 then [start]
  else (List.range num).map
    (fun i => start * (stop / start) ^ ((i : ℝ) / ((num : ℝ) - 1)))

/-- Embedding of the numeric branch of `GeometricSearch.generate_combo`:
`tmp_list = list(np.geomspace(value[0], value[1], value[2]))`. -/
noncomputable def geometric_expand (low high : ℝ) (count : Nat) : List ℝ :=
  geomspace low high count

/-! ## Retry-with-backoff discipline (lines 443-460, 671-691, 806-823)

Every external read follows the same shape: `retry = True; i = 0;
while retry: try: <call>; retry = False; except: if i < 5: sleep(60); i += 1;
else: <give up>`.  The sequence of outcomes of the successive attempts is
abstracted as `att : Nat → Option β` (`att n` is the result of the `n`-th
attempt, `none` when it raises). -/

/-- One retry loop with the counter starting at `i`; `fuel` bounds the
recursion (any `fuel ≥ 6 - i` is exact, since the counter stops at 5). -/
def retry_calls {β : Type} (att : Nat → Option β) : Nat → Nat → Option β
  | _, 0 => none
  | i, fuel + 1 =>
    match att i with
    | some b => some b
    | none => if i < 5 then retry_calls att (i + 1) fuel else none

/-- The retry wrapper as used at every call site: counter starts at 0, and at
most 6 attempts (the initial one plus 5 sleep-and-retry rounds) are made. -/
def retry5 {β : Type} (att : Nat → Option β) : Option β :=
  retry_calls att 0 6

/-- Post-ceiling behaviour of the dataset metadata fetch in
`get_dataset_metadata` (lines 443-460): the retry wrapper's result, `None`
(modelled `none`) once the ceiling is exhausted; the caller keeps processing
the assay with whatever metadata it already had. -/
def get_dataset_metadata_fetch {μ : Type} (att : Nat → Option μ) : Option μ :=
  retry5 att

/-- Embedding of the registry duplicate query in `already_run`
(lines 806-823): the matching-model list is fetched through the retry wrapper;
past the ceiling the function prints and returns `False`, i.e. the candidate
is treated as not previously run. -/
def already_run {μ : Type} (att : Nat → Option (List μ)) : Bool :=
  match retry5 att with
  | none => false
  | some models => !models.isEmpty

/-- Embedding of the initial shortlist fetch in `get_shortlist_df`
(datastore branch, lines 671-691): past the retry ceiling the code calls
`sys.exit(1)`, modelled as `Except.error`. -/
def get_shortlist_fetch {μ : Type} (att : Nat → Option μ) : Except Unit μ :=
  match retry5 att with
  | none => Except.error ()
  | some df => Except.ok df

/-! ## Dispatch loop (`submit_jobs`, lines 732-791)

`assay_params` is a Python dict that is only written and looked up here, so it
is modelled as a function `String → Option V`.  It is built by
`copy.deepcopy(self.new_params)` once per assay and then mutated in place
across the combination loop. -/

/-- A Python-dict value store: total lookup function. -/
def Pdict (V : Type) : Type := String → Option V

/-- Embedding of `assay_params[key] = value`. -/
def dset {V : Type} (d : Pdict V) (k : String) (v : V) : Pdict V :=
  fun k' => if k' = k then some v else d k'

/-- A value in a `ParameterCombination`.  In the source every combination
value is plain except the one stored under the key `'layers'`, which is a dict
of layer-group sub-entries; `submit_jobs` branches on that key and writes the
sub-entries individually. -/
inductive CVal (V : Type) where
  | plain (v : V)
  | bundle (sub : List (String × V))

/-- Write the sub-entries of a `layers` bundle one by one
(`for k, v in value.items(): assay_params[k] = v`, lines 772-773). -/
def write_sub {V : Type} (d : Pdict V) : List (String × V) → Pdict V
  | [] => d
  | (k, v) :: rest => write_sub (dset d k v) rest

/-- Embedding of the overlay loop of lines 770-775: each combination entry is
written into `assay_params`; an entry holding a `layers` bundle is written as
its constituent sub-keys, a plain entry under its own key. -/
def overlay_combo {V : Type} (d : Pdict V) : List (String × CVal V) → Pdict V
  | [] => d
  | (key, CVal.plain v) :: rest => overlay_combo (dset d key v) rest
  | (_, CVal.bundle sub) :: rest => overlay_combo (write_sub d sub) rest

/-- The dict keys a combination entry writes into `assay_params`. -/
def entry_keys {V : Type} : String × CVal V → List String
  | (k, CVal.plain _) => [k]
  | (_, CVal.bundle sub) => sub.map (fun p => p.1)

/-- All dict keys a combination writes into `assay_params`. -/
def combo_keys {V : Type} (c : List (String × CVal V)) : List String :=
  c.flatMap entry_keys

/-- The successive `assay_params` states seen by the combination loop: the
dict is NOT re-copied per combination, so state mutated for one combination is
the starting state for the next.  For every combination that is NOT skipped,
the loop additionally executes
`assay_params['result_dir'] = os.path.join(base_result_dir, str(uuid.uuid4()))`
(line 788) before submitting, and that write is part of the state the next
combination starts from.  `skip` abstracts the feasibility-filter and
duplicate-check `continue`s (lines 776-782, which run on the freshly overlaid
dict and bypass line 788 when they fire); `rdir n` is the fresh
`base_result_dir/uuid` path the `n`-th submission of this assay writes.  The
emitted entry for a combination is the dict right after its overlay (the
record the checks run on, lines 768-775). -/
def candidates_aux {V : Type} (skip : Pdict V → Bool) (rdir : Nat → V) :
    Pdict V → Nat → List (List (String × CVal V)) → List (Pdict V)
  | _, _, [] => []
  | d, n, c :: cs =>
    let d' := overlay_combo d c
    if skip d' then d' :: candidates_aux skip rdir d' n cs
    else d' :: candidates_aux skip rdir (dset d' "result_dir" (rdir n)) (n + 1) cs

/-- The JobRecord candidate built for each combination of one assay:
`assay_params` starts as a deep copy of the base (value semantics here, line
741) and is mutated in place by each combination overlay in turn, interleaved
with the per-submission `result_dir` overwrite of line 788. -/
def combo_candidates {V : Type} (skip : Pdict V → Bool) (rdir : Nat → V)
    (base : Pdict V) (combos : List (List (String × CVal V))) : List (Pdict V) :=
  candidates_aux skip rdir base 0 combos

/-! ### Queue throttle and submission -/

/-- The scheduler queue as the dispatch loop observes it: `occ n` is the
occupancy returned by the `n`-th `squeue` poll of the run, `max_jobs` the cap. -/
structure QueueEnv where
  occ : Nat → Nat
  max_jobs : Nat

/-- Embedding of the throttle of lines 783-787: poll once, then
`while i >= max_jobs: sleep(60); i = <poll>`.  Returns the occupancy observed
by the final poll together with the next poll index; `fuel` bounds the loop
(the Python loop can spin forever if the queue never drains). -/
def throttle_poll (env : QueueEnv) : Nat → Nat → Option (Nat × Nat)
  | _, 0 => none
  | p, fuel + 1 =>
    let i := env.occ p
    if i ≥ env.max_jobs then throttle_poll env (p + 1) fuel
    else some (i, p + 1)

/-- A submitted JobRecord together with the occupancy observed by the last
queue poll before its submission (`none` when no poll preceded it). -/
structure Submission (V : Type) where
  record : Pdict V
  checked_occ : Option Nat

/-- Embedding of the sweep branch of `submit_jobs` (lines 767-791) for one
assay: per combination, overlay it onto the running `assay_params`, apply the
feasibility filter and the duplicate check (abstracted as the oracles
`feas_skip` / `dup_skip` on the resulting dict, matching lines 776-782), then
run the queue throttle and submit.  Threads the mutated dict and the poll
index; `fuel` bounds each throttle loop. -/
def submit_combos {V : Type} (env : QueueEnv) (feas_skip dup_skip : Pdict V → Bool)
    (fuel : Nat) :
    List (List (String × CVal V)) → Pdict V → Nat →
    Option (List (Submission V) × Pdict V × Nat)
  | [], d, p => some ([], d, p)
  | c :: cs, d, p =>
    let d' := overlay_combo d c
    if feas_skip d' then submit_combos env feas_skip dup_skip fuel cs d' p
    else if dup_skip d' then submit_combos env feas_skip dup_skip fuel cs d' p
    else
      match throttle_poll env p fuel with
      | none => none
      | some (i, p') =>
        match submit_combos env feas_skip dup_skip fuel cs d' p' with
        | none => none
        | some (subs, dF, pF) => some (⟨d', some i⟩ :: subs, dF, pF)

/-- Embedding of the per-assay body of `submit_jobs` (lines 755-791): when
`param_combos` is empty, the assay base itself is the single candidate, passed
through the feasibility filter and duplicate check and then submitted with NO
queue poll (lines 755-766 contain no throttle); otherwise the sweep branch
runs. -/
def submit_for_assay {V : Type} (env : QueueEnv) (feas_skip dup_skip : Pdict V → Bool)
    (fuel : Nat) (base : Pdict V) (combos : List (List (String × CVal V))) :
    Option (List (Submission V)) :=
  if combos.isEmpty then
    if feas_skip base then some []
    else if dup_skip base then some []
    else some [⟨base, none⟩]
  else
    match submit_combos env feas_skip dup_skip fuel combos base 0 with
    | none => none
    | some (subs, _, _) => some subs

/-! ## Helper lemmas -/

/-- A foldl that appends each mapped element passing a test is the filtered map. -/
theorem foldl_if_append_eq_filter_map {α β : Type} (f : α → β) (P : β → Bool) :
    ∀ (l : List α) (init : List β),
      l.foldl (fun acc i => if P (f i) then acc ++ [f i] else acc) init =
        init ++ (l.map f).filter (fun b => P b)
  | [], init => by simp
  | x :: xs, init => by
    by_cases h : P (f x) <;>
      simp [List.foldl_cons, List.filter_cons, h,
        foldl_if_append_eq_filter_map f P xs]

/-! ## Claim theorems: C7, C6, C2, C10 -/

/-- C7: `permutate_NNlayer_combo_params([2], [4,8,16], [0], 16)` yields exactly
the topologies `[16,8]`, `[16,4]`, `[8,4]` (as a set, `{[16,4],[16,8],[8,4]}`),
each paired with dropouts `[0,0]`; and `permutate_NNlayer_combo_params([2],
[4,8,8], [0], 16)` yields exactly `[8,8]`, `[8,4]` — the duplicate width 8
collapses into one emitted combination of repeated equal sizes, not two
identical combinations. -/
theorem C7_permutate_concrete_examples :
    permutate_NNlayer_combo_params [2] [4, 8, 16] [(0 : Nat)] 16 =
      some ([[16, 8], [16, 4], [8, 4]], [[0, 0], [0, 0], [0, 0]]) ∧
    permutate_NNlayer_combo_params [2] [4, 8, 8] [(0 : Nat)] 16 =
      some ([[8, 8], [8, 4]], [[0, 0], [0, 0]]) := by
  exact ⟨by decide, by decide⟩

/-- C6: `get_num_params` returns the fully-connected product-sum plus
`1024*layers[0]` for featurizer `ecfp`, `306*layers[0]` for descriptor type
`moe`, `1555*layers[0]` for `mordred_filtered`, and the bare product-sum for a
featurizer other than `ecfp`/`descriptors` — but for featurizer `descriptors`
with any other descriptor type the dangling `else` makes the function fall off
the end and return Python `None` (modelled `none`), so the estimate is NOT
always a defined number usable in the feasibility comparison.  The first
conjunct evaluates the code at such a failing input. -/
theorem C6_get_num_params_descriptors_gap :
    get_num_params [4] "descriptors" "rdkit_raw" = none ∧
    get_num_params [8, 4] "ecfp" "moe" = some ((8 + (8 * 4 + 4)) + 8 * 1024) ∧
    get_num_params [8, 4] "descriptors" "moe" = some ((8 + (8 * 4 + 4)) + 8 * 306) ∧
    get_num_params [8, 4] "descriptors" "mordred_filtered" =
      some ((8 + (8 * 4 + 4)) + 8 * 1555) ∧
    get_num_params [8, 4] "graphconv" "moe" = some (8 + (8 * 4 + 4)) := by
  refine ⟨by decide, by decide, by decide, by decide, by decide⟩

/-- C2: the number of parameter combinations `generate_combos` produces for
one model-type/featurizer subset equals the product of the lengths of the
expanded value lists of the subset's swept parameters; for an empty sweep
dictionary the product is empty and exactly one implicit combination (the
base, an empty record) is produced. -/
theorem C2_generate_combos_count :
    (∀ (α : Type) (new_dict : List (String × List α)),
      (generate_combos new_dict).length =
        (new_dict.map (fun p => p.2.length)).prod) ∧
    (generate_combos ([] : List (String × List Nat))).length = 1 := by
  constructor
  · intro α nd
    induction nd with
    | nil => simp [generate_combos]
    | cons h t ih =>
      obtain ⟨k, vs⟩ := h
      simp [generate_combos, Function.comp_def, ih, List.map_const', List.sum_replicate,
        smul_eq_mul, mul_comm]
  · decide

/-- C10: `assemble_layers` zips every bundle position (below the minimum
constituent-list count) whose constituent lists all have equal length into one
bundle entry, in position order, and silently drops a position with mismatched
constituent-list lengths; being a total function, it raises no error. -/
theorem C10_assemble_layers_characterization :
    ∀ (α : Type) (layers : List (String × List (List α))),
      assemble_layers layers =
        ((List.range (min_len layers)).map (bundle_at layers)).filter
          (fun t => lengths_all_equal (t.map (fun p => p.2.length))) := by
  intro α layers
  simpa using foldl_if_append_eq_filter_map (bundle_at layers)
    (fun t => lengths_all_equal (t.map (fun p => p.2.length)))
    (List.range (min_len layers)) []

/-- C9: the Grid strategy expanding the numeric 3-tuple `(0.0, 1.0, 5)`
produces exactly `[0.0, 0.25, 0.5, 0.75, 1.0]` (count evenly spaced points
from low to high inclusive), and the Geometric strategy expanding
`(1.0, 100.0, 3)` produces `[1.0, 10.0, 100.0]` in exact arithmetic (count
log-uniformly spaced points from low to high inclusive). -/
theorem C9_grid_and_geometric_concrete :
    grid_expand 0 1 5 = [0, 1/4, 1/2, 3/4, 1] ∧
    geometric_expand 1 100 3 = [1, 10, 100] := by
  constructor
  · norm_num [grid_expand, linspace, List.range_succ]
  · have h2 : ((100 : ℝ)) ^ ((1 : ℝ) / 2) = 10 := by
      have h100 : (100 : ℝ) = (10 : ℝ) ^ ((2 : ℕ) : ℝ) := by
        rw [Real.rpow_natCast]; norm_num
      rw [h100, ← Real.rpow_mul (by norm_num : (0 : ℝ) ≤ 10)]
      norm_num
    norm_num [geometric_expand, geomspace, List.range_succ, h2]

/-- With no candidate layer lists, the dropout loop leaves the accumulators
unchanged. -/
theorem perm_dropouts_loop_nil_cands {δ : Type} (cap : Nat) :
    ∀ (dl : List δ) (ls : List (List Nat)) (ds : List (List δ)),
      perm_dropouts_loop cap [] dl ls ds = some (ls, ds)
  | [], _, _ => rfl
  | _ :: rest, ls, ds => by
    simpa [perm_dropouts_loop, perm_layers_loop] using
      perm_dropouts_loop_nil_cands cap rest ls ds

/-- C8 counterexample: with empty `node_nums` (and non-empty `layer_nums` and
`dropout_list`), `permutate_NNlayer_combo_params` raises `IndexError` at
`node_nums[-1]` (modelled `none`) instead of returning empty output. -/
theorem C8_empty_node_nums_counterexample :
    permutate_NNlayer_combo_params [2] ([] : List Nat) [(0 : Nat)] 16 = none := by
  decide

/-- C8 amended: when `layer_nums` or `dropout_list` is empty and `node_nums`
is non-empty, `permutate_NNlayer_combo_params` returns empty output (two empty
sequences) without an error; but when `node_nums` is empty the access
`node_nums[-1]` raises `IndexError` (modelled `none`), whatever the other
inputs are. -/
theorem C8_empty_inputs_amended :
    ∀ (δ : Type) (layer_nums node_nums : List Nat) (dropout_list : List δ)
      (mfs : Nat),
      (node_nums ≠ [] → layer_nums = [] ∨ dropout_list = [] →
        permutate_NNlayer_combo_params layer_nums node_nums dropout_list mfs =
          some ([], [])) ∧
      (node_nums = [] →
        permutate_NNlayer_combo_params layer_nums node_nums dropout_list mfs =
          none) := by
  intro δ ln nn dl mfs
  constructor
  · intro hnn hempty
    have hlen : (sort_desc nn).length = nn.length := by
      simp [sort_desc, List.length_insertionSort]
    have hs : (sort_desc nn) ≠ [] := by
      intro h
      rw [h] at hlen
      exact hnn (List.eq_nil_of_length_eq_zero hlen.symm)
    obtain ⟨s, hs⟩ := List.getLast?_isSome.mpr hs |> Option.isSome_iff_exists.mp
    rcases hempty with h | h
    · subst h
      simp [permutate_NNlayer_combo_params, hs, perm_dropouts_loop_nil_cands]
    · subst h
      simp [permutate_NNlayer_combo_params, hs, perm_dropouts_loop]
  · intro h
    subst h
    simp [permutate_NNlayer_combo_params, sort_desc]

/-- C8 witness: the amended theorem applied at concrete inputs — empty
`layer_nums` with non-empty `node_nums` gives empty output, and empty
`node_nums` gives the error sentinel. -/
theorem C8_empty_inputs_amended_witness :
    permutate_NNlayer_combo_params [] [5] [(0 : Nat)] 16 = some ([], []) ∧
    permutate_NNlayer_combo_params [2] ([] : List Nat) [(0 : Nat)] 16 = none :=
  ⟨(C8_empty_inputs_amended Nat [] [5] [0] 16).1 (by decide) (Or.inl rfl),
   (C8_empty_inputs_amended Nat [2] [] [0] 16).2 rfl⟩

/-- When every attempt up to the ceiling fails, the retry loop gives up with
`none` (the counter never leaves `0..5`). -/
theorem retry_calls_all_fail {β : Type} (att : Nat → Option β) :
    ∀ (fuel i : Nat), i ≤ 5 → (∀ j, j ≤ 5 → att j = none) →
      retry_calls att i fuel = none
  | 0, _, _, _ => rfl
  | fuel + 1, i, hi, hfail => by
    rw [retry_calls, hfail i hi]
    by_cases h : i < 5
    · simpa [h] using retry_calls_all_fail att fuel (i + 1) h hfail
    · simp [h]

/-- The retry loop returns the first successful attempt when one occurs within
the ceiling. -/
theorem retry_calls_first_success {β : Type} (att : Nat → Option β) :
    ∀ (fuel i n : Nat) (b : β), att (i + n) = some b →
      (∀ j, j < n → att (i + j) = none) → i + n ≤ 5 → n < fuel →
      retry_calls att i fuel = some b := by
  intro fuel
  induction fuel with
  | zero => intro i n b _ _ _ h; omega
  | succ f ih =>
    intro i n b hb hfail hle _
    match n, hb, hfail with
    | 0, hb, _ =>
      rw [retry_calls]
      simp only [Nat.add_zero] at hb
      rw [hb]
    | m + 1, hb, hfail =>
      have h0 : att i = none := by simpa using hfail 0 (Nat.succ_pos m)
      have hi5 : i < 5 := by omega
      rw [retry_calls, h0]
      simp only [hi5, if_pos]
      exact ih (i + 1) m b (by rw [show i + 1 + m = i + (m + 1) by omega]; exact hb)
        (fun j hj => by rw [show i + 1 + j = i + (j + 1) by omega]
                        exact hfail (j + 1) (by omega))
        (by omega) (by omega)

/-- C5 counterexample: when every registry attempt fails, `already_run`
returns `False` past the ceiling, and the dispatch loop consequently SUBMITS
the candidate (one submission) instead of skipping it — the cited spec
sentence says the exhausted retry is downgraded to a per-combination skip. -/
theorem C5_registry_failure_not_a_skip :
    already_run (fun _ => (none : Option (List Nat))) = false ∧
    (submit_for_assay ⟨fun _ => 0, 1⟩ (fun _ => false)
        (fun _ => already_run (fun _ => (none : Option (List Nat)))) 3
        (fun _ => (none : Option Nat)) [[("a", CVal.plain 1)]]).map List.length =
      some 1 :=
  ⟨rfl, rfl⟩

/-- C5 amended: each boundary read (dataset metadata fetch, registry duplicate
query, shortlist fetch) is retried up to the fixed ceiling of 6 attempts (the
initial attempt plus 5 sleep-and-retry rounds), returning the first success
within the ceiling; past the ceiling the failure is reported and a sentinel is
propagated instead of an exception — `None` for the metadata fetch (the assay
keeps being processed with unresolved metadata), `False` for the registry
duplicate query (the candidate is treated as not previously run and is
submitted, not skipped) — while the initial shortlist fetch aborts the whole
run (`sys.exit(1)`, modelled `Except.error`). -/
theorem C5_retry_discipline_amended :
    ∀ (M : Type) (att : Nat → Option M) (attL : Nat → Option (List M))
      (attS : Nat → Option M),
      ((∀ j, j ≤ 5 → att j = none) → get_dataset_metadata_fetch att = none) ∧
      ((∀ j, j ≤ 5 → attL j = none) → already_run attL = false) ∧
      ((∀ j, j ≤ 5 → attS j = none) → get_shortlist_fetch attS = Except.error ()) ∧
      (∀ n b, n ≤ 5 → att n = some b → (∀ j, j < n → att j = none) →
        get_dataset_metadata_fetch att = some b) := by
  intro M att attL attS
  refine ⟨?_, ?_, ?_, ?_⟩
  · intro hfail
    exact retry_calls_all_fail att 6 0 (by omega) hfail
  · intro hfail
    simp [already_run, retry5, retry_calls_all_fail attL 6 0 (by omega) hfail]
  · intro hfail
    simp [get_shortlist_fetch, retry5, retry_calls_all_fail attS 6 0 (by omega) hfail]
  · intro n b hn hb hfail
    exact retry_calls_first_success att 6 0 n b (by simpa using hb)
      (fun j hj => by simpa using hfail j hj) (by omega) (by omega)

/-- C5 witness: the amended theorem applied to the all-failing attempt
sequence and to a sequence succeeding at the third attempt. -/
theorem C5_retry_discipline_amended_witness :
    get_dataset_metadata_fetch (fun _ => (none : Option Nat)) = none ∧
    already_run (fun _ => (none : Option (List Nat))) = false ∧
    get_shortlist_fetch (fun _ => (none : Option Nat)) = Except.error () ∧
    get_dataset_metadata_fetch
        (fun j => if j = 2 then some 7 else (none : Option Nat)) = some 7 := by
  refine ⟨(C5_retry_discipline_amended Nat (fun _ => none) (fun _ => none)
      (fun _ => none)).1 (fun _ _ => rfl),
    (C5_retry_discipline_amended Nat (fun _ => none) (fun _ => none)
      (fun _ => none)).2.1 (fun _ _ => rfl),
    (C5_retry_discipline_amended Nat (fun _ => none) (fun _ => none)
      (fun _ => none)).2.2.1 (fun _ _ => rfl),
    (C5_retry_discipline_amended Nat
      (fun j => if j = 2 then some 7 else none) (fun _ => none)
      (fun _ => none)).2.2.2 2 7 (by omega) (by decide) ?_⟩
  intro j hj
  interval_cases j <;> decide

/-- The throttle loop only returns an occupancy strictly below the cap. -/
theorem throttle_poll_lt (env : QueueEnv) :
    ∀ (fuel p i p' : Nat), throttle_poll env p fuel = some (i, p') →
      i < env.max_jobs
  | 0, _, _, _, h => by simp [throttle_poll] at h
  | fuel + 1, p, i, p', h => by
    rw [throttle_poll] at h
    by_cases hocc : env.occ p ≥ env.max_jobs
    · exact throttle_poll_lt env fuel (p + 1) i p' (by simpa [hocc] using h)
    · simp only [hocc, if_neg, not_false_iff, if_false] at h
      obtain ⟨h1, _⟩ := Prod.mk.injEq .. ▸ (Option.some.injEq .. ▸ h)
      omega

/-- Every submission the sweep-branch loop emits carries the occupancy its
final throttle poll observed, and that occupancy is below the cap. -/
theorem submit_combos_checked {V : Type} (env : QueueEnv)
    (feas_skip dup_skip : Pdict V → Bool) (fuel : Nat) :
    ∀ (cs : List (List (String × CVal V))) (d : Pdict V) (p : Nat)
      (subs : List (Submission V)) (dF : Pdict V) (pF : Nat),
      submit_combos env feas_skip dup_skip fuel cs d p = some (subs, dF, pF) →
      ∀ s ∈ subs, ∃ i, s.checked_occ = some i ∧ i < env.max_jobs := by
  intro cs
  induction cs with
  | nil =>
    intro d p subs dF pF h s hs
    rw [submit_combos] at h
    simp only [Option.some.injEq, Prod.mk.injEq] at h
    obtain ⟨h1, -, -⟩ := h
    subst h1
    simp at hs
  | cons c rest ih =>
    intro d p subs dF pF h s hs
    rw [submit_combos] at h
    by_cases hf : feas_skip (overlay_combo d c)
    · exact ih _ _ subs dF pF (by simpa [hf] using h) s hs
    · by_cases hd : dup_skip (overlay_combo d c)
      · exact ih _ _ subs dF pF (by simpa [hf, hd] using h) s hs
      · simp only [hf, hd, if_false, Bool.false_eq_true] at h
        cases ht : throttle_poll env p fuel with
        | none => simp [ht] at h
        | some ip =>
          obtain ⟨i, p'⟩ := ip
          simp only [ht] at h
          cases hrec : submit_combos env feas_skip dup_skip fuel rest
              (overlay_combo d c) p' with
          | none => simp [hrec] at h
          | some out =>
            obtain ⟨subs', dF', pF'⟩ := out
            simp only [hrec, Option.some.injEq, Prod.mk.injEq] at h
            obtain ⟨h1, -, -⟩ := h
            subst h1
            rcases List.mem_cons.mp hs with hs | hs
            · subst hs
              exact ⟨i, rfl, throttle_poll_lt env fuel p i p' ht⟩
            · exact ih _ _ subs' dF' pF' hrec s hs

/-- C3 counterexample: with no hyperparameter sweep configured
(`param_combos` empty), the dispatch loop submits the assay base with NO queue
poll at all (`checked_occ = none`), even in an environment whose observed
occupancy (constantly 5) always meets or exceeds the cap (1) — lines 755-766
contain no sleep-and-repoll loop. -/
theorem C3_no_sweep_no_throttle :
    submit_for_assay ⟨fun _ => 5, 1⟩ (fun _ => false) (fun _ => false) 3
        (fun _ => (none : Option Nat)) [] =
      some [⟨fun _ => none, none⟩] ∧
    (QueueEnv.mk (fun _ => 5) 1).max_jobs ≤ (QueueEnv.mk (fun _ => 5) 1).occ 0 :=
  ⟨rfl, by decide⟩

/-- C3 amended: when a hyperparameter sweep IS configured (`param_combos`
non-empty), every submission the dispatch loop makes is preceded by the
blocking sleep-and-repoll throttle, and the occupancy observed by the final
poll before the submission is strictly below `max_jobs`; the no-sweep branch
submits without any queue poll. -/
theorem C3_throttle_amended :
    ∀ (V : Type) (env : QueueEnv) (feas_skip dup_skip : Pdict V → Bool)
      (fuel : Nat) (base : Pdict V) (combos : List (List (String × CVal V)))
      (subs : List (Submission V)),
      combos ≠ [] →
      submit_for_assay env feas_skip dup_skip fuel base combos = some subs →
      ∀ s ∈ subs, ∃ i, s.checked_occ = some i ∧ i < env.max_jobs := by
  intro V env feas_skip dup_skip fuel base combos subs hne h s hs
  rw [submit_for_assay] at h
  simp only [List.isEmpty_iff, hne, if_false] at h
  cases hrun : submit_combos env feas_skip dup_skip fuel combos base 0 with
  | none => rw [hrun] at h; cases h
  | some out =>
    obtain ⟨subs', dF, pF⟩ := out
    rw [hrun] at h
    obtain rfl : subs' = subs := by
      simpa using h
    exact submit_combos_checked env feas_skip dup_skip fuel combos base 0
      _ dF pF hrun s hs

/-- C3 witness: the amended theorem applied to a one-combination sweep in an
environment where the first poll sees occupancy 0 under cap 1: the single
submission carries a checked occupancy below the cap. -/
theorem C3_throttle_amended_witness :
    ∃ i, (Submission.mk (overlay_combo (fun _ => (none : Option Nat))
        [("a", CVal.plain 1)]) (some 0)).checked_occ = some i ∧
      i < (QueueEnv.mk (fun _ => 0) 1).max_jobs :=
  C3_throttle_amended Nat ⟨fun _ => 0, 1⟩ (fun _ => false) (fun _ => false) 3
    (fun _ => none) [[("a", CVal.plain 1)]]
    [⟨overlay_combo (fun _ => (none : Option Nat)) [("a", CVal.plain 1)], some 0⟩]
    (by simp) rfl
    ⟨overlay_combo (fun _ => (none : Option Nat)) [("a", CVal.plain 1)], some 0⟩
    (List.mem_singleton.mpr rfl)

/-- Writing a bundle leaves keys it does not mention untouched. -/
theorem write_sub_not_mem {V : Type} (k : String) :
    ∀ (sub : List (String × V)) (d : Pdict V),
      k ∉ sub.map (fun p => p.1) → write_sub d sub k = d k
  | [], _, _ => rfl
  | (k0, v) :: rest, d, h => by
    have h' : k ≠ k0 ∧ k ∉ rest.map (fun p => p.1) := by
      simp only [List.map_cons, List.mem_cons, not_or] at h
      exact h
    show write_sub (dset d k0 v) rest k = d k
    rw [write_sub_not_mem k rest _ h'.2]
    simp [dset, h'.1]

/-- At a key a bundle mentions, the written value does not depend on the
dict state before the write. -/
theorem write_sub_mem {V : Type} (k : String) :
    ∀ (sub : List (String × V)) (d d' : Pdict V),
      k ∈ sub.map (fun p => p.1) → write_sub d sub k = write_sub d' sub k
  | [], _, _, h => by simp at h
  | (k0, v) :: rest, d, d', h => by
    by_cases hr : k ∈ rest.map (fun p => p.1)
    · exact write_sub_mem k rest _ _ hr
    · have hk : k = k0 := by
        simp only [List.map_cons, List.mem_cons] at h
        tauto
      show write_sub (dset d k0 v) rest k = write_sub (dset d' k0 v) rest k
      rw [write_sub_not_mem k rest _ hr, write_sub_not_mem k rest _ hr]
      simp [dset, hk]

/-- A combination overlay leaves keys it does not write untouched. -/
theorem overlay_combo_not_mem {V : Type} (k : String) :
    ∀ (c : List (String × CVal V)) (d : Pdict V),
      k ∉ combo_keys c → overlay_combo d c k = d k
  | [], _, _ => rfl
  | (k0, CVal.plain v) :: rest, d, h => by
    have h' : k ≠ k0 ∧ k ∉ combo_keys rest := by
      simp only [combo_keys, List.flatMap_cons, entry_keys, List.mem_append,
        List.mem_singleton, not_or] at h
      exact ⟨h.1, h.2⟩
    show overlay_combo (dset d k0 v) rest k = d k
    rw [overlay_combo_not_mem k rest _ h'.2]
    simp [dset, h'.1]
  | (k0, CVal.bundle sub) :: rest, d, h => by
    have h' : k ∉ sub.map (fun p => p.1) ∧ k ∉ combo_keys rest := by
      simp only [combo_keys, List.flatMap_cons, entry_keys, List.mem_append,
        not_or] at h
      exact ⟨h.1, h.2⟩
    show overlay_combo (write_sub d sub) rest k = d k
    rw [overlay_combo_not_mem k rest _ h'.2, write_sub_not_mem k sub d h'.1]

/-- At a key a combination writes, the overlaid value does not depend on the
dict state the overlay started from. -/
theorem overlay_combo_mem {V : Type} (k : String) :
    ∀ (c : List (String × CVal V)) (d d' : Pdict V),
      k ∈ combo_keys c → overlay_combo d c k = overlay_combo d' c k
  | [], _, _, h => by simp [combo_keys] at h
  | (k0, CVal.plain v) :: rest, d, d', h => by
    by_cases hr : k ∈ combo_keys rest
    · exact overlay_combo_mem k rest _ _ hr
    · have hk : k = k0 := by
        simp only [combo_keys, List.flatMap_cons, entry_keys, List.mem_append,
          List.mem_singleton] at h
        tauto
      show overlay_combo (dset d k0 v) rest k = overlay_combo (dset d' k0 v) rest k
      rw [overlay_combo_not_mem k rest _ hr, overlay_combo_not_mem k rest _ hr]
      simp [dset, hk]
  | (k0, CVal.bundle sub) :: rest, d, d', h => by
    by_cases hr : k ∈ combo_keys rest
    · exact overlay_combo_mem k rest _ _ hr
    · have hk : k ∈ sub.map (fun p => p.1) := by
        simp only [combo_keys, List.flatMap_cons, entry_keys, List.mem_append] at h
        tauto
      show overlay_combo (write_sub d sub) rest k = overlay_combo (write_sub d' sub) rest k
      rw [overlay_combo_not_mem k rest _ hr, overlay_combo_not_mem k rest _ hr]
      exact write_sub_mem k sub d d' hk

/-- A chain of combination overlays leaves keys none of them writes
untouched. -/
theorem foldl_overlay_not_mem {V : Type} (k : String) :
    ∀ (l : List (List (String × CVal V))) (d : Pdict V),
      k ∉ l.flatMap combo_keys → l.foldl overlay_combo d k = d k
  | [], _, _ => rfl
  | c :: rest, d, h => by
    have h' : k ∉ combo_keys c ∧ k ∉ rest.flatMap combo_keys := by
      simp only [List.flatMap_cons, List.mem_append, not_or] at h
      exact h
    show rest.foldl overlay_combo (overlay_combo d c) k = d k
    rw [foldl_overlay_not_mem k rest _ h'.2, overlay_combo_not_mem k c d h'.1]

/-- Overlaying a combination preserves agreement of two dict states at any
fixed key: at a key the combination writes both sides get the combination's
value, elsewhere both sides pass through. -/
theorem overlay_combo_congr_at {V : Type} (k : String)
    (c : List (String × CVal V)) (d1 d2 : Pdict V) (h : d1 k = d2 k) :
    overlay_combo d1 c k = overlay_combo d2 c k := by
  by_cases hk : k ∈ combo_keys c
  · exact overlay_combo_mem k c d1 d2 hk
  · rw [overlay_combo_not_mem k c d1 hk, overlay_combo_not_mem k c d2 hk, h]

/-- One candidate dict per combination. -/
theorem candidates_aux_length {V : Type} (skip : Pdict V → Bool) (rdir : Nat → V) :
    ∀ (cs : List (List (String × CVal V))) (d : Pdict V) (n : Nat),
      (candidates_aux skip rdir d n cs).length = cs.length
  | [], _, _ => rfl
  | c :: cs, d, n => by
    by_cases h : skip (overlay_combo d c) <;>
      simp [candidates_aux, h, candidates_aux_length skip rdir cs]

/-- Unfolding of the candidate chain on a non-skipped step: the overlaid dict
is emitted and, `result_dir` freshly set, threaded to the rest. -/
theorem candidates_aux_cons_neg {V : Type} (skip : Pdict V → Bool) (rdir : Nat → V)
    (d : Pdict V) (n : Nat) (c : List (String × CVal V))
    (cs : List (List (String × CVal V))) (hs : ¬ skip (overlay_combo d c) = true) :
    candidates_aux skip rdir d n (c :: cs) =
      overlay_combo d c ::
        candidates_aux skip rdir (dset (overlay_combo d c) "result_dir" (rdir n))
          (n + 1) cs := by
  rw [candidates_aux]
  simp [hs]

/-- Unfolding of the candidate chain on a skipped step: the overlaid dict is
emitted and threaded unchanged to the rest (line 788 does not run). -/
theorem candidates_aux_cons_pos {V : Type} (skip : Pdict V → Bool) (rdir : Nat → V)
    (d : Pdict V) (n : Nat) (c : List (String × CVal V))
    (cs : List (List (String × CVal V))) (hs : skip (overlay_combo d c) = true) :
    candidates_aux skip rdir d n (c :: cs) =
      overlay_combo d c :: candidates_aux skip rdir (overlay_combo d c) n cs := by
  rw [candidates_aux]
  simp [hs]

/-- Every candidate is the state it started from overlaid with its own
combination. -/
theorem candidates_aux_get_overlay {V : Type} (skip : Pdict V → Bool)
    (rdir : Nat → V) :
    ∀ (cs : List (List (String × CVal V))) (d : Pdict V) (n i : Nat)
      (h : i < (candidates_aux skip rdir d n cs).length) (hi : i < cs.length),
      ∃ d0, (candidates_aux skip rdir d n cs).get ⟨i, h⟩ =
        overlay_combo d0 (cs.get ⟨i, hi⟩)
  | [], _, _, _, _, hi => absurd hi (by simp)
  | c :: cs, d, n, 0, h, hi => by
    by_cases hs : skip (overlay_combo d c) <;>
      exact ⟨d, by simp [candidates_aux, hs]⟩
  | c :: cs, d, n, i + 1, h, hi => by
    by_cases hs : skip (overlay_combo d c)
    · obtain ⟨d0, hd0⟩ := candidates_aux_get_overlay skip rdir cs
        (overlay_combo d c) n i (by simpa [candidates_aux, hs] using h)
        (by simpa using hi)
      exact ⟨d0, by simpa [candidates_aux, hs] using hd0⟩
    · obtain ⟨d0, hd0⟩ := candidates_aux_get_overlay skip rdir cs
        (dset (overlay_combo d c) "result_dir" (rdir n)) (n + 1) i
        (by simpa [candidates_aux, hs] using h) (by simpa using hi)
      exact ⟨d0, by simpa [candidates_aux, hs] using hd0⟩

/-- Away from `result_dir` the candidate chain, with its interleaved line-788
`result_dir` writes, agrees pointwise with the pure overlay chain: the
`result_dir` writes touch no other key, and each combination overlay transfers
pointwise agreement. -/
theorem candidates_aux_get_agree {V : Type} (skip : Pdict V → Bool)
    (rdir : Nat → V) (k : String) (hk : k ≠ "result_dir") :
    ∀ (cs : List (List (String × CVal V))) (d e : Pdict V) (n : Nat),
      d k = e k →
      ∀ (i : Nat) (h : i < (candidates_aux skip rdir d n cs).length),
        (candidates_aux skip rdir d n cs).get ⟨i, h⟩ k =
          ((cs.take (i + 1)).foldl overlay_combo e) k
  | [], _, _, _, _, _, h => absurd h (by simp [candidates_aux])
  | c :: cs, d, e, n, hde, 0, h => by
    by_cases hs : skip (overlay_combo d c)
    · rw [List.get_of_eq (candidates_aux_cons_pos skip rdir d n c cs hs)]
      simpa using overlay_combo_congr_at k c d e hde
    · rw [List.get_of_eq (candidates_aux_cons_neg skip rdir d n c cs hs)]
      simpa using overlay_combo_congr_at k c d e hde
  | c :: cs, d, e, n, hde, i + 1, h => by
    have hstep : overlay_combo d c k = overlay_combo e c k :=
      overlay_combo_congr_at k c d e hde
    by_cases hs : skip (overlay_combo d c)
    · have hrec := candidates_aux_get_agree skip rdir k hk cs (overlay_combo d c)
        (overlay_combo e c) n hstep i
        (by rw [candidates_aux_cons_pos skip rdir d n c cs hs] at h; simpa using h)
      rw [List.get_of_eq (candidates_aux_cons_pos skip rdir d n c cs hs)]
      simpa using hrec
    · have hset : dset (overlay_combo d c) "result_dir" (rdir n) k =
          overlay_combo e c k := by
        rw [dset]
        simpa [hk] using hstep
      have hrec := candidates_aux_get_agree skip rdir k hk cs
        (dset (overlay_combo d c) "result_dir" (rdir n)) (overlay_combo e c)
        (n + 1) hset i
        (by rw [candidates_aux_cons_neg skip rdir d n c cs hs] at h; simpa using h)
      rw [List.get_of_eq (candidates_aux_cons_neg skip rdir d n c cs hs)]
      simpa using hrec

/-- C4 counterexample: `assay_params` is deep-copied once per ASSAY, not per
combination (line 741), so with two combinations writing different keys the
key "a" set while processing the first combination persists into the second
candidate, which therefore differs from the base overlaid with exactly the
second combination (where "a" is unset): state set for an earlier combination
influences a later candidate. -/
theorem C4_earlier_combo_leaks :
    ((combo_candidates (fun _ => false) (fun _ => 0)
        (fun _ => (none : Option Nat))
        [[("a", CVal.plain 1)], [("b", CVal.plain 2)]]).getD 1 (fun _ => none)) "a" =
      some 1 ∧
    overlay_combo (fun _ => (none : Option Nat)) [("b", CVal.plain 2)] "a" = none := by
  exact ⟨by decide, by decide⟩

/-- C4 amended: for one assay the candidate for the `i`-th combination is the
deep-copied base threaded through the overlays of combinations `0..i`
interleaved with the per-submission `result_dir` overwrites of line 788 (a
`layers` entry overlaid as its constituent sub-keys).  At every key other than
`result_dir` it agrees with the base overlaid successively with combinations
`0..i`; a field neither written by any combination so far nor equal to
`result_dir` keeps its base value; a field the `i`-th combination writes has
exactly the value that combination alone assigns; and when all combinations
write the same key set (as within a single model-type/featurizer subset),
every candidate coincides with the base overlaid with exactly its own
combination at every key but `result_dir`.  But a key written by an earlier
combination and not by the current one retains the earlier value, and
`result_dir` carries the fresh path of the latest earlier submission. -/
theorem C4_candidate_overlay_amended :
    ∀ (V : Type) (base : Pdict V) (skip : Pdict V → Bool) (rdir : Nat → V)
      (combos : List (List (String × CVal V)))
      (i : Nat) (hi : i < combos.length)
      (hc : i < (combo_candidates skip rdir base combos).length),
      (∀ k, k ≠ "result_dir" →
        (combo_candidates skip rdir base combos).get ⟨i, hc⟩ k =
          ((combos.take (i + 1)).foldl overlay_combo base) k) ∧
      (∀ k, k ∉ (combos.take (i + 1)).flatMap combo_keys → k ≠ "result_dir" →
        (combo_candidates skip rdir base combos).get ⟨i, hc⟩ k = base k) ∧
      (∀ k, k ∈ combo_keys (combos.get ⟨i, hi⟩) →
        (combo_candidates skip rdir base combos).get ⟨i, hc⟩ k =
          overlay_combo base (combos.get ⟨i, hi⟩) k) ∧
      ((∀ c, c ∈ combos → ∀ c', c' ∈ combos → ∀ k, k ∈ combo_keys c →
          k ∈ combo_keys c') →
        ∀ k, k ≠ "result_dir" ∨ k ∈ combo_keys (combos.get ⟨i, hi⟩) →
          (combo_candidates skip rdir base combos).get ⟨i, hc⟩ k =
            overlay_combo base (combos.get ⟨i, hi⟩) k) := by
  intro V base skip rdir combos i hi hc
  have ha : ∀ k, k ≠ "result_dir" →
      (combo_candidates skip rdir base combos).get ⟨i, hc⟩ k =
        ((combos.take (i + 1)).foldl overlay_combo base) k :=
    fun k hk => candidates_aux_get_agree skip rdir k hk combos base base 0 rfl i hc
  have hcur : ∀ k, k ∈ combo_keys (combos.get ⟨i, hi⟩) →
      (combo_candidates skip rdir base combos).get ⟨i, hc⟩ k =
        overlay_combo base (combos.get ⟨i, hi⟩) k := by
    intro k hkm
    obtain ⟨d0, hd0⟩ := candidates_aux_get_overlay skip rdir combos base 0 i hc hi
    have hd0' : (combo_candidates skip rdir base combos).get ⟨i, hc⟩ =
        overlay_combo d0 (combos.get ⟨i, hi⟩) := hd0
    rw [hd0']
    exact overlay_combo_mem k (combos.get ⟨i, hi⟩) d0 base hkm
  refine ⟨ha, ?_, hcur, ?_⟩
  · intro k hnot hk
    rw [ha k hk]
    exact foldl_overlay_not_mem k _ base hnot
  · intro hsame k hor
    rcases hor with hk | hkm
    · by_cases hkm : k ∈ combo_keys (combos.get ⟨i, hi⟩)
      · exact hcur k hkm
      · have hnot : k ∉ (combos.take (i + 1)).flatMap combo_keys := by
          intro hmem
          obtain ⟨c, hc_mem, hkc⟩ := List.mem_flatMap.mp hmem
          exact hkm (hsame c (List.take_subset _ _ hc_mem) (combos.get ⟨i, hi⟩)
            (combos.get_mem i hi) k hkc)
        rw [ha k hk, foldl_overlay_not_mem k _ base hnot,
          overlay_combo_not_mem k _ base hkm]
    · exact hcur k hkm

/-- C4 witness: the amended theorem applied to the two-combination sweep of
the counterexample: the second candidate at key "b" carries the value the
second combination assigns, and at the untouched key "z" the base value. -/
theorem C4_candidate_overlay_amended_witness :
    ((combo_candidates (fun _ => false) (fun _ => 0)
        (fun _ => (none : Option Nat))
        [[("a", CVal.plain 1)], [("b", CVal.plain 2)]]).get ⟨1, by decide⟩) "b" =
      overlay_combo (fun _ => (none : Option Nat)) [("b", CVal.plain 2)] "b" ∧
    ((combo_candidates (fun _ => false) (fun _ => 0)
        (fun _ => (none : Option Nat))
        [[("a", CVal.plain 1)], [("b", CVal.plain 2)]]).get ⟨1, by decide⟩) "z" =
      (fun _ => (none : Option Nat)) "z" := by
  have h := C4_candidate_overlay_amended Nat
    (fun _ => (none : Option Nat)) (fun _ => false) (fun _ => 0)
    [[("a", CVal.plain 1)], [("b", CVal.plain 2)]]
    1 (by decide) (by decide)
  exact ⟨h.2.2.1 "b" (by decide), h.2.1 "z" (by decide) (by decide)⟩

/-- Every emitted combination is a subsequence of the input list, exactly as
`itertools.combinations` documents. -/
theorem combinations_sublist {α : Type} :
    ∀ (l : List α) (r : Nat) (c : List α), c ∈ combinations l r → c.Sublist l
  | l, 0, c, h => by
    simp only [combinations, List.mem_singleton] at h
    subst h
    exact List.nil_sublist l
  | [], _ + 1, c, h => by simp [combinations] at h
  | x :: xs, r + 1, c, h => by
    rw [combinations] at h
    rcases List.mem_append.mp h with h | h
    · obtain ⟨c', hc', rfl⟩ := List.mem_map.mp h
      exact List.Sublist.cons₂ x (combinations_sublist xs r c' hc')
    · exact List.Sublist.cons x (combinations_sublist xs (r + 1) c h)

/-- Sorting ascending and reversing yields a non-increasing list. -/
theorem sort_desc_pairwise (l : List Nat) : (sort_desc l).Pairwise (· ≥ ·) := by
  rw [sort_desc, List.pairwise_reverse]
  exact List.sorted_insertionSort (· ≤ ·) l

/-- A good emitted pair for the dropout predicate `D`: the layer list is
non-increasing and the dropout list is one `D`-value repeated once per layer. -/
def good_pair {δ : Type} (D : δ → Prop) (l : List Nat) (d : List δ) : Prop :=
  l.Pairwise (· ≥ ·) ∧ ∃ x, D x ∧ d = List.replicate l.length x

/-- The inner layer loop preserves goodness of the accumulators: every pair it
appends pairs a candidate layer list with the current dropout repeated once
per layer. -/
theorem perm_layers_loop_good {δ : Type} (cap : Nat) (dropout : δ) (D : δ → Prop)
    (hD : D dropout) :
    ∀ (cands rep ls : List (List Nat)) (ds : List (List δ))
      (rep' ls' : List (List Nat)) (ds' : List (List δ)),
      perm_layers_loop cap dropout cands rep ls ds = some (rep', ls', ds') →
      (∀ c ∈ cands, c.Pairwise (· ≥ ·)) →
      ls.length = ds.length →
      (∀ l d, (l, d) ∈ ls.zip ds → good_pair D l d) →
      ls'.length = ds'.length ∧ ∀ l d, (l, d) ∈ ls'.zip ds' → good_pair D l d := by
  intro cands
  induction cands with
  | nil =>
    intro rep ls ds rep' ls' ds' h _ hlen hgood
    rw [perm_layers_loop] at h
    simp only [Option.some.injEq, Prod.mk.injEq] at h
    obtain ⟨-, h2, h3⟩ := h
    subst h2
    subst h3
    exact ⟨hlen, hgood⟩
  | cons layer rest ih =>
    intro rep ls ds rep' ls' ds' h hc hlen hgood
    rw [perm_layers_loop] at h
    cases hlast : layer.getLast? with
    | none => simp [hlast] at h
    | some last =>
      simp only [hlast] at h
      by_cases hcond : last ≤ cap ∧ layer ∉ rep
      · rw [if_pos hcond] at h
        refine ih _ _ _ rep' ls' ds' h
          (fun c hc' => hc c (List.mem_cons_of_mem _ hc')) (by simp [hlen]) ?_
        intro l d hld
        rw [List.zip_append hlen] at hld
        rcases List.mem_append.mp hld with hld | hld
        · exact hgood l d hld
        · simp only [List.zip_cons_cons, List.zip_nil_right, List.mem_singleton,
            Prod.mk.injEq] at hld
          obtain ⟨rfl, rfl⟩ := hld
          refine ⟨hc l (List.mem_cons_self _ _), dropout, hD, ?_⟩
          simp [List.map_const']
      · rw [if_neg hcond] at h
        exact ih _ _ _ rep' ls' ds' h
          (fun c hc' => hc c (List.mem_cons_of_mem _ hc')) hlen hgood

/-- The outer dropout loop preserves goodness with each dropout drawn from the
dropout predicate. -/
theorem perm_dropouts_loop_good {δ : Type} (cap : Nat) (cands : List (List Nat))
    (D : δ → Prop) (hc : ∀ c ∈ cands, c.Pairwise (· ≥ ·)) :
    ∀ (dl : List δ), (∀ x ∈ dl, D x) →
      ∀ (ls : List (List Nat)) (ds : List (List δ)) (ls' : List (List Nat))
        (ds' : List (List δ)),
        perm_dropouts_loop cap cands dl ls ds = some (ls', ds') →
        ls.length = ds.length →
        (∀ l d, (l, d) ∈ ls.zip ds → good_pair D l d) →
        ls'.length = ds'.length ∧ ∀ l d, (l, d) ∈ ls'.zip ds' → good_pair D l d := by
  intro dl
  induction dl with
  | nil =>
    intro _ ls ds ls' ds' h hlen hgood
    rw [perm_dropouts_loop] at h
    simp only [Option.some.injEq, Prod.mk.injEq] at h
    obtain ⟨h1, h2⟩ := h
    subst h1
    subst h2
    exact ⟨hlen, hgood⟩
  | cons dropout rest ih =>
    intro hD ls ds ls' ds' h hlen hgood
    rw [perm_dropouts_loop] at h
    cases hinner : perm_layers_loop cap dropout cands [] ls ds with
    | none => simp [hinner] at h
    | some out =>
      obtain ⟨rep1, ls1, ds1⟩ := out
      simp only [hinner] at h
      have hstep := perm_layers_loop_good cap dropout D
        (hD dropout (List.mem_cons_self _ _)) cands [] ls ds rep1 ls1 ds1 hinner
        hc hlen hgood
      exact ih (fun x hx => hD x (List.mem_cons_of_mem _ hx)) ls1 ds1 ls' ds' h
        hstep.1 hstep.2

/-- C1: for every call to `permutate_NNlayer_combo_params` with non-empty
`node_nums` that returns normally, the emitted `layer_sizes` and `dropouts`
sequences have equal length, every emitted layer-size list is non-increasing
left to right (funnel constraint), and its paired dropout list is one dropout
scalar from `dropout_list` repeated once per layer. -/
theorem C1_funnel_and_dropouts :
    ∀ (δ : Type) (layer_nums node_nums : List Nat) (dropout_list : List δ)
      (mfs : Nat) (ls : List (List Nat)) (ds : List (List δ)),
      node_nums ≠ [] →
      permutate_NNlayer_combo_params layer_nums node_nums dropout_list mfs =
        some (ls, ds) →
      ls.length = ds.length ∧
      ∀ l d, (l, d) ∈ ls.zip ds →
        l.Pairwise (· ≥ ·) ∧ ∃ x ∈ dropout_list, d = List.replicate l.length x := by
  intro δ ln nn dl mfs ls ds hne h
  rw [permutate_NNlayer_combo_params] at h
  cases hlast : (sort_desc nn).getLast? with
  | none => simp [hlast] at h
  | some smallest =>
    simp only [hlast] at h
    have hc : ∀ c ∈ ln.flatMap (fun layer_num => combinations (sort_desc nn) layer_num),
        c.Pairwise (· ≥ ·) := by
      intro c hcm
      obtain ⟨n, -, hcn⟩ := List.mem_flatMap.mp hcm
      exact List.Pairwise.sublist (combinations_sublist (sort_desc nn) n c hcn)
        (sort_desc_pairwise nn)
    have hmain := perm_dropouts_loop_good
      (if smallest > mfs then smallest else mfs)
      (ln.flatMap (fun layer_num => combinations (sort_desc nn) layer_num))
      (fun x => x ∈ dl) hc dl (fun x hx => hx) [] [] ls ds h rfl (by simp)
    refine ⟨hmain.1, fun l d hld => ?_⟩
    obtain ⟨hpw, x, hx, hrep⟩ := hmain.2 l d hld
    exact ⟨hpw, x, hx, hrep⟩

/-- C1 witness: the theorem applied to the concrete call
`permutate_NNlayer_combo_params([2], [4,8,16], [0], 16)`. -/
theorem C1_funnel_and_dropouts_witness :
    ([[16, 8], [16, 4], [8, 4]] : List (List Nat)).length =
      ([[0, 0], [0, 0], [0, 0]] : List (List Nat)).length ∧
    ∀ l d, (l, d) ∈ ([[16, 8], [16, 4], [8, 4]] : List (List Nat)).zip
        ([[0, 0], [0, 0], [0, 0]] : List (List Nat)) →
      l.Pairwise (· ≥ ·) ∧ ∃ x ∈ [(0 : Nat)], d = List.replicate l.length x :=
  C1_funnel_and_dropouts Nat [2] [4, 8, 16] [0] 16
    [[16, 8], [16, 4], [8, 4]] [[0, 0], [0, 0], [0, 0]] (by decide) (by decide)

end AMPL
